import Mathlib

/-
A verification development for the grudge discontinuous-Galerkin operator
layer.  The definitions below are shallow embeddings of the Python sources
`grudge/op.py` and `grudge/symbolic/mappers/__init__.py`:

* pure numeric kernels (reference-matrix formulas, per-element contractions)
  become functions over rationals, with `np.einsum` contractions written as
  explicit `Finset.range` sums;
* the per-context memoization of reference matrices becomes explicit
  association-list state passing;
* Python exceptions (`ValueError`, `TypeError`, `AttributeError`, failing
  `assert`) become `Except`/`Option` results;
* the symbolic expression trees handled by the rewrite mappers become
  inductive types, with one constructor per node kind the mappers dispatch on.

Parts of grudge that the sources reference but that are not themselves in the
source tree (grudge/dof_desc.py, grudge/symbolic/operators.py, grudge/tools.py,
grudge/symbolic/primitives.py and the pymbolic/pytools substrate) are modelled
from the specification; each such definition carries a doc comment starting
with "Modelled from the spec:".
-/

set_option maxHeartbeats 1000000

namespace GrudgeSpec

/-! ## Domain descriptors (grudge.dof_desc) -/

/-- Modelled from the spec: the domain-tag half of a domain descriptor.
grudge/dof_desc.py is not among the sources; the spec (section 3) lists the
variants "volume / named boundary / interior-faces / all-faces / scalar". -/
inductive DomTag where
  | volume
  | scalarDom
  | allFaces
  | intFaces
  | boundary (tag : ℕ)
deriving DecidableEq, Repr

/-- Modelled from the spec: the quadrature-tag half of a domain descriptor:
"none = nodal (QTAG_NONE), or a named quadrature rule". -/
inductive QTag where
  | qtagNone
  | quad (t : ℕ)
deriving DecidableEq, Repr

/-- Modelled from the spec: a domain descriptor (`DOFDesc`): a domain tag
crossed with a quadrature tag. -/
structure DD where
  dom : DomTag
  qt : QTag
deriving DecidableEq, Repr

/-- The base volume descriptor `dof_desc.DD_VOLUME`. -/
def DD_VOLUME : DD := ⟨.volume, .qtagNone⟩

/-- Modelled from the spec: `dd.with_qtag(QTAG_NONE)` as used by the
global-to-reference mapper (mappers line 503). -/
def DD.withQtagNone (d : DD) : DD := ⟨d.dom, .qtagNone⟩

/-- Modelled from the spec: the values convertible to a `DOFDesc` that the
source passes to `as_dofdesc`: an already-built descriptor, or one of the
symbolic names "vol" / "int_faces" / "all_faces" / "scalar". -/
inductive DDInput where
  | vol
  | intFaces
  | allFaces
  | scalarName
  | ofDD (d : DD)
deriving DecidableEq, Repr

/-- Modelled from the spec: `dof_desc.as_dofdesc`, normalizing a convertible
value to a descriptor (grudge/dof_desc.py is not among the sources).  The
symbolic names carry no quadrature tag, hence normalize to nodal. -/
def as_dofdesc : DDInput → DD
  | .vol => ⟨.volume, .qtagNone⟩
  | .intFaces => ⟨.intFaces, .qtagNone⟩
  | .allFaces => ⟨.allFaces, .qtagNone⟩
  | .scalarName => ⟨.scalarDom, .qtagNone⟩
  | .ofDD d => d

/-! ## Field data as dispatched on by the operator layer

The public operator entry points in op.py dispatch on the Python type of
their field argument: a plain number, a `DOFArray` (kept opaque here, the
per-array payload is identified by a tag and transformed by externally
supplied per-array functions), or a numpy object array of further fields. -/

/-- A field value as seen by the type dispatch in op.py: `num` is a plain
`numbers.Number`, `dofA` a `meshmode` DOFArray (opaque id), `objA` a numpy
object array of fields. -/
inductive PVec where
  | num (q : ℚ)
  | dofA (id : ℕ)
  | objA (l : List PVec)

/-! ## project (op.py lines 97-118) -/

mutual

/-- `grudge.op.project(dcoll, src, tgt, vec)` (op.py lines 97-118).  The
external `dcoll.connection_from_dds(src, tgt)` collaborator is the `conn`
argument.  After normalizing both descriptors, equal descriptors return the
input unchanged; object arrays recurse elementwise (`obj_array_vectorize`);
plain numbers are returned unchanged; DOF arrays go through the connection. -/
def project (conn : DD → DD → PVec → PVec) (src tgt : DDInput) (vec : PVec) :
    PVec :=
  let s := as_dofdesc src
  let t := as_dofdesc tgt
  if s = t then vec
  else
    match vec with
    | .objA l => .objA (projectList conn src tgt l)
    | .num q => .num q
    | .dofA i => conn s t (.dofA i)

/-- Elementwise recursion of `project` over a numpy object array
(`obj_array_vectorize`). -/
def projectList (conn : DD → DD → PVec → PVec) (src tgt : DDInput) :
    List PVec → List PVec
  | [] => []
  | x :: xs => project conn src tgt x :: projectList conn src tgt xs

end

/-! ## The reference-matrix cache (op.py lines 155-168, 273-313, 445-479,
531-548, 619-704)

Each `reference_*_matrix` function wraps its computation in
`keyed_memoize_in(actx, identifier, key_fn)`: per compute context, one
cache dictionary per `identifier`, keyed by the discretization-key tuple.
The numeric payloads themselves are computed by external meshmode/modepy
routines; here they are kept opaque, tagged by which routine produced them,
since the claims about this cache concern lookup identity, not values. -/

/-- The memoization identifiers (`identifier` arguments of
`keyed_memoize_in`) that occur in op.py.  Each is the function object the
source passes; note that the source has no separate identifier for the face
mass matrix: `reference_face_mass_matrix` passes `reference_mass_matrix`
(op.py line 622). -/
inductive MemoId where
  | referenceDerivativeMatrices
  | referenceStiffnessTransposeMatrix
  | referenceMassMatrix
  | referenceInverseMassMatrix
deriving DecidableEq, Repr

/-- An opaque reference matrix, tagged by the computation that produced it
(the external meshmode/modepy numeric routines). -/
inductive MatVal where
  | derivativeMats (key : ℕ)
  | stiffnessTransposeMat (keyOut keyIn : ℕ)
  | massMat (keyOut keyIn : ℕ)
  | inverseMassMat (key : ℕ)
  | faceMassMat (keyFace keyVol : ℕ)
deriving DecidableEq, Repr

/-- The per-context cache state: one association list, keyed by memoization
identifier together with the discretization-key tuple (a one- or two-element
list of group keys). -/
def MatCache : Type := List ((MemoId × List ℕ) × MatVal)

/-- Modelled from the spec: `keyed_memoize_in` (pytools, not among the
sources): look the key up in the identifier's cache; on a hit return the
cached object unchanged, on a miss compute, store and return.  The spec
(section 4.2): "All results are computed once per unique key and frozen". -/
def keyedMemoize (ident : MemoId) (key : List ℕ) (compute : MatVal)
    (c : MatCache) : MatVal × MatCache :=
  match c.find? (fun e => e.1 = (ident, key)) with
  | some e => (e.2, c)
  | none => (compute, ((ident, key), compute) :: c)

/-- `reference_mass_matrix(actx, out_element_group, in_element_group)`
(op.py lines 445-479): memoized under the `reference_mass_matrix`
identifier, keyed by the pair of discretization keys. -/
def reference_mass_matrix (keyOut keyIn : ℕ) (c : MatCache) :
    MatVal × MatCache :=
  keyedMemoize .referenceMassMatrix [keyOut, keyIn] (.massMat keyOut keyIn) c

/-- `reference_inverse_mass_matrix(actx, element_group)` (op.py lines
531-548): memoized under its own identifier, keyed by the single
discretization key. -/
def reference_inverse_mass_matrix (key : ℕ) (c : MatCache) :
    MatVal × MatCache :=
  keyedMemoize .referenceInverseMassMatrix [key] (.inverseMassMat key) c

/-- `reference_stiffness_transpose_matrix(actx, out_element_group,
in_element_group)` (op.py lines 273-313): memoized under its own
identifier, keyed by the pair of discretization keys. -/
def reference_stiffness_transpose_matrix (keyOut keyIn : ℕ) (c : MatCache) :
    MatVal × MatCache :=
  keyedMemoize .referenceStiffnessTransposeMatrix [keyOut, keyIn]
    (.stiffnessTransposeMat keyOut keyIn) c

/-- `reference_face_mass_matrix(actx, face_element_group, vol_element_group,
dtype)` (op.py lines 619-704).  The source's decorator is
`keyed_memoize_in(actx, reference_mass_matrix, ...)` (line 622): the face
mass matrix is memoized under the identifier of `reference_mass_matrix`,
keyed by the (face group, volume group) discretization-key pair; the dtype
argument does not enter the key. -/
def reference_face_mass_matrix (keyFace keyVol : ℕ) (c : MatCache) :
    MatVal × MatCache :=
  keyedMemoize .referenceMassMatrix [keyFace, keyVol]
    (.faceMassMat keyFace keyVol) c

/-! ## The cross-discretization reference mass matrix (op.py lines 463-477)

When `out_grp != in_grp`, `get_ref_mass_mat` builds the projection mass
matrix from the output basis Vandermonde data and the input group's
quadrature weights via `np.einsum("j,ik,jk->ij", weights, vand_inv_t,
o_vand)`.  The Vandermonde matrices and the weights are computed by external
modepy routines and enter here as data; `nb` is the number of basis
functions of the output group's basis (the contracted index `k`). -/

/-- The contraction `np.einsum("j,ik,jk->ij", weights, vand_inv_t, o_vand)`
of op.py line 473: `j` and `i` are output indices, only `k` is summed. -/
def einsum_j_ik_jk_ij (nb : ℕ) (weights : ℕ → ℚ) (vand_inv_t o_vand : ℕ → ℕ → ℚ) :
    ℕ → ℕ → ℚ :=
  fun i j => ∑ k ∈ Finset.range nb, weights j * vand_inv_t i k * o_vand j k

/-- The `out_grp != in_grp` branch of `get_ref_mass_mat` inside
`reference_mass_matrix` (op.py lines 463-477): `weights` are the input
group's quadrature weights, `vand_inv_t` the inverse-transposed Vandermonde
of the output basis at the output group's nodes, `o_vand` the Vandermonde of
that basis at the input group's nodes. -/
def get_ref_mass_mat_cross (nb : ℕ) (weights : ℕ → ℚ)
    (vand_inv_t o_vand : ℕ → ℕ → ℚ) : ℕ → ℕ → ℚ :=
  einsum_j_ik_jk_ij nb weights vand_inv_t o_vand

/-- The projection mass matrix as the specification writes it:
"M[i,j] = Σ_k weights[k] · vand_inv_t[i,k] · other_vand[j,k]", with the
quadrature weight indexed by the summation index `k`. -/
def spec_cross_mass_formula (nb : ℕ) (weights : ℕ → ℚ)
    (vand_inv_t o_vand : ℕ → ℕ → ℚ) : ℕ → ℕ → ℚ :=
  fun i j => ∑ k ∈ Finset.range nb, weights k * vand_inv_t i k * o_vand j k

/-! ## Cross-rank trace-pair communication (op.py lines 868-967) -/

/-- One point-to-point exchange as set up by `_RankBoundaryCommunication`:
the send and the receive both use `self.tag` (op.py lines 887-891). -/
structure RBComm where
  remoteRank : ℕ
  tag : ℤ
deriving DecidableEq, Repr

/-- The communication tag computed in `_RankBoundaryCommunication.__init__`
(op.py lines 869-874): the class constant `base_tag = 1273`, plus the
caller-supplied tag when one is given. -/
def rbcTag (tag : Option ℤ) : ℤ :=
  match tag with
  | none => 1273
  | some t => 1273 + t

/-- The exchanges issued by `_cross_rank_trace_pairs_scalar_field` (op.py
lines 911-918): a plain number short-circuits (no communication); otherwise
one `_RankBoundaryCommunication` per connected rank, with the given tag. -/
def cross_rank_scalar_field_comms (ranks : List ℕ) (isNumber : Bool)
    (tag : Option ℤ) : List RBComm :=
  if isNumber then []
  else ranks.map (fun r => ⟨r, rbcTag tag⟩)

/-- The shape of the `ary` argument of `cross_rank_trace_pairs`: a numpy
object array (with, per flattened component, whether that component is a
plain number), or a single non-array field, which may itself be a number. -/
inductive AryKind where
  | objArray (componentIsNumber : List Bool)
  | dofArray
  | number
deriving DecidableEq, Repr

/-- The exchanges issued by one call of `cross_rank_trace_pairs(dcoll, ary,
tag)` (op.py lines 921-967).  For an object array the source loops over the
flattened components and calls `_cross_rank_trace_pairs_scalar_field(dcoll,
comm_vec[ivec])` with no tag argument (lines 949-951); for anything else it
forwards the tag (line 967). -/
def cross_rank_trace_pairs_comms (ranks : List ℕ) (ary : AryKind)
    (tag : Option ℤ) : List RBComm :=
  match ary with
  | .objArray comps =>
      comps.flatMap (fun isNum => cross_rank_scalar_field_comms ranks isNum none)
  | .dofArray => cross_rank_scalar_field_comms ranks false tag
  | .number => cross_rank_scalar_field_comms ranks true tag

/-! ## The inverse mass operator (op.py lines 531-612)

`_apply_inverse_mass_operator` zips the volume discretization's element
groups with the per-group Jacobian data and the per-group DOF data.  An
element group enters here with its sizes, its affineness flag, and its
reference mass and inverse-mass matrices (computed by the external
modepy/meshmode routines behind the cache above).  Per-group arrays are
`ℕ → ℕ → ℚ` maps from (element, dof) to value; entries outside
`[0, nel) × [0, nd)` are irrelevant. -/

/-- An element group of the volume discretization as consumed by the inverse
mass operator: `nd` unit dofs, affineness, and its two reference matrices. -/
structure MassElemGroup where
  nd : ℕ
  isAffine : Bool
  refMass : ℕ → ℕ → ℚ
  refInvMass : ℕ → ℕ → ℚ

/-- The affine-path contraction `actx.einsum("ij,ej,ej->ei", mass_inv_mat,
jac_det_inv, vec)` (op.py lines 585-601) for one element group. -/
def inv_mass_affine_contraction (g : MassElemGroup) (invJac x : ℕ → ℕ → ℚ) :
    ℕ → ℕ → ℚ :=
  fun e i => ∑ j ∈ Finset.range g.nd, g.refInvMass i j * invJac e j * x e j

/-- The weight-adjusted (WADG) contraction `actx.einsum("ik,km,em,mj,ej->ei",
ref_mass_inv, ref_mass, jac_inv, ref_mass_inv, x)` (op.py lines 565-583) for
one element group: `ref_Minv · ref_M · (1/jac) · ref_Minv` applied to `x`. -/
def inv_mass_wadg_contraction (g : MassElemGroup) (invJac x : ℕ → ℕ → ℚ) :
    ℕ → ℕ → ℚ :=
  fun e i =>
    ∑ k ∈ Finset.range g.nd, ∑ m ∈ Finset.range g.nd, ∑ j ∈ Finset.range g.nd,
      g.refInvMass i k * g.refMass k m * invJac e m * g.refInvMass m j * x e j

/-- `_apply_inverse_mass_operator(dcoll, dd_out, dd_in, vec)` (op.py lines
551-601).  Differing descriptors raise `ValueError`; otherwise
`use_wadg = not all(grp.is_affine for grp in discr.groups)` selects, for
every group at once, either the plain inverse-mass path or the
weight-adjusted path; both consume `inv_area_elements = 1/area_element`
(`jac` gives the per-group area elements, inverted pointwise here). -/
def apply_inverse_mass_operator (ddOut ddIn : DD) (groups : List MassElemGroup)
    (jac vec : List (ℕ → ℕ → ℚ)) : Except String (List (ℕ → ℕ → ℚ)) :=
  if ddOut ≠ ddIn then
    .error "Cannot compute inverse of a mass matrix mapping between different element groups; inverse is not guaranteed to be well-defined"
  else if ¬ (groups.all (fun g => g.isAffine)) then
    .ok ((groups.zip ((jac.map (fun je => fun e j => (je e j)⁻¹)).zip vec)).map
      (fun gjx => inv_mass_wadg_contraction gjx.1 gjx.2.1 gjx.2.2))
  else
    .ok ((groups.zip ((jac.map (fun je => fun e j => (je e j)⁻¹)).zip vec)).map
      (fun gjx => inv_mass_affine_contraction gjx.1 gjx.2.1 gjx.2.2))

/-! ## Type dispatch of the public operator entry points (op.py lines
510-524, 604-612, 760-773, 230-248, 171-227, 316-409)

`mass`, `inverse_mass` and `face_mass` recurse over numpy object arrays via
`obj_array_vectorize` and otherwise hand the argument to their
`_apply_*_operator` routine, whose first access of the field is
`vec.array_context` (for `face_mass`, `vec.entry_dtype` one line earlier) —
attributes a plain number or an object array does not have, so those inputs
raise `AttributeError`.  `local_grad` and `weak_local_grad` have no object
array or number branch at all: every input goes per axis into
`_compute_local_gradient` resp. `_apply_stiffness_transpose_operator`,
whose `vec.array_context` read fails for anything but a DOFArray.  The
per-DOFArray payload transformation is the externally supplied `applyLeaf`
(its numeric content is the subject of the contraction definitions
above). -/

/-- The `AttributeError` raised when a plain number or an object array
reaches `vec.array_context` inside an application routine. -/
def attrErrMsg : String := "AttributeError: object has no attribute array_context"

/-- The `AttributeError` raised when a plain number or an object array
reaches `vec.entry_dtype` in `_apply_face_mass_operator` (op.py line 712),
the routine's first access of the field. -/
def entryDtypeErrMsg : String := "AttributeError: object has no attribute entry_dtype"

mutual

/-- `grudge.op.mass(dcoll, dd, vec)` (op.py lines 510-524): object arrays
recurse elementwise, everything else goes to `_apply_mass_operator`, which
immediately reads `vec.array_context`. -/
def massF (applyLeaf : ℕ → ℕ) : PVec → Except String PVec
  | .objA l => (massFList applyLeaf l).map .objA
  | .num _ => .error attrErrMsg
  | .dofA i => .ok (.dofA (applyLeaf i))

/-- Elementwise recursion of `mass` over an object array. -/
def massFList (applyLeaf : ℕ → ℕ) : List PVec → Except String (List PVec)
  | [] => .ok []
  | x :: xs => do
      let y ← massF applyLeaf x
      let ys ← massFList applyLeaf xs
      pure (y :: ys)

end

mutual

/-- `grudge.op.inverse_mass(dcoll, vec)` (op.py lines 604-612): object
arrays recurse elementwise, everything else goes to
`_apply_inverse_mass_operator`, which reads `vec.array_context`. -/
def inverseMassF (applyLeaf : ℕ → ℕ) : PVec → Except String PVec
  | .objA l => (inverseMassFList applyLeaf l).map .objA
  | .num _ => .error attrErrMsg
  | .dofA i => .ok (.dofA (applyLeaf i))

/-- Elementwise recursion of `inverse_mass` over an object array. -/
def inverseMassFList (applyLeaf : ℕ → ℕ) : List PVec → Except String (List PVec)
  | [] => .ok []
  | x :: xs => do
      let y ← inverseMassF applyLeaf x
      let ys ← inverseMassFList applyLeaf xs
      pure (y :: ys)

end

mutual

/-- `grudge.op.face_mass(dcoll, dd, vec)` (op.py lines 760-773): object
arrays recurse elementwise, everything else goes to
`_apply_face_mass_operator`, which reads `vec.entry_dtype` (op.py line 712)
before `vec.array_context`, so a plain number fails there first. -/
def faceMassF (applyLeaf : ℕ → ℕ) : PVec → Except String PVec
  | .objA l => (faceMassFList applyLeaf l).map .objA
  | .num _ => .error entryDtypeErrMsg
  | .dofA i => .ok (.dofA (applyLeaf i))

/-- Elementwise recursion of `face_mass` over an object array. -/
def faceMassFList (applyLeaf : ℕ → ℕ) : List PVec → Except String (List PVec)
  | [] => .ok []
  | x :: xs => do
      let y ← faceMassF applyLeaf x
      let ys ← faceMassFList applyLeaf xs
      pure (y :: ys)

end

/-- `_div_helper(dcoll, diff_func, vecs)` (op.py lines 230-248), for the
one-dimensional object-array shape: a non-object-array argument raises
`TypeError`; an object array whose length differs from the ambient dimension
raises `ValueError`; otherwise the per-axis `diff_func` results are summed
by the external DOFArray addition `sumf`.  (Higher-rank numpy object arrays
iterate the same per-row computation and are not modelled.) -/
def div_helper (ambientDim : ℕ) (sumf : List PVec → PVec)
    (diffFunc : ℕ → PVec → PVec) : PVec → Except String PVec
  | .num _ => .error "TypeError: argument must be an object array"
  | .dofA _ => .error "TypeError: argument must be an object array"
  | .objA l =>
      if l.length = ambientDim then
        .ok (sumf (l.mapIdx (fun i v => diffFunc i v)))
      else
        .error "ValueError: last dimension of vecs argument must match ambient dimension"

/-- `_compute_local_gradient(dcoll, vec, xyz_axis)` (op.py lines 171-201)
as seen by the field-type dispatch: its first access of the field is
`actx = vec.array_context` (op.py line 176), so a plain number or an object
array raises `AttributeError`; a DOFArray gets the per-axis reference
derivative contraction, abstracted into `applyLeaf axis`. -/
def compute_local_gradient (applyLeaf : ℕ → ℕ → ℕ) (axis : ℕ) :
    PVec → Except String PVec
  | .num _ => .error attrErrMsg
  | .objA _ => .error attrErrMsg
  | .dofA i => .ok (.dofA (applyLeaf axis i))

/-- `grudge.op.local_grad(dcoll, vec)` (op.py lines 204-215): an object
array of the per-axis `_compute_local_gradient` results over
`range(dcoll.dim)` — there is no object-array or number dispatch before the
per-axis calls. -/
def localGradF (dim : ℕ) (applyLeaf : ℕ → ℕ → ℕ) (vec : PVec) :
    Except String PVec :=
  ((List.range dim).mapM (fun axis => compute_local_gradient applyLeaf axis vec)).map
    .objA

/-- `_apply_stiffness_transpose_operator(dcoll, dd_out, dd_in, vec,
xyz_axis)` (op.py lines 316-356) as seen by the field-type dispatch: its
first access of the field is `actx = vec.array_context` (op.py line 323),
so a plain number or an object array raises `AttributeError`; a DOFArray
gets the per-axis stiffness-transpose contraction, abstracted into
`applyLeaf axis`. -/
def apply_stiffness_transpose_operator (applyLeaf : ℕ → ℕ → ℕ) (axis : ℕ) :
    PVec → Except String PVec
  | .num _ => .error attrErrMsg
  | .objA _ => .error attrErrMsg
  | .dofA i => .ok (.dofA (applyLeaf axis i))

/-- `grudge.op.weak_local_grad(dcoll, dd, vec)` (op.py lines 359-385): an
object array of the per-axis `_apply_stiffness_transpose_operator` results
over `range(dcoll.dim)` — there is no object-array or number dispatch
before the per-axis calls. -/
def weakLocalGradF (dim : ℕ) (applyLeaf : ℕ → ℕ → ℕ) (vec : PVec) :
    Except String PVec :=
  ((List.range dim).mapM
    (fun axis => apply_stiffness_transpose_operator applyLeaf axis vec)).map .objA

/-! ## norm (op.py lines 780-808)

`norm(dcoll, vec, p)` recurses over object arrays; a single DOFArray is
reduced by the bound symbolic expression `_norm(dcoll, p, dd)`, i.e.
`sym.norm(p, var)` from grudge/symbolic/primitives.py, which is not among
the sources.  Numeric results are kept as symbolic reduction-value trees
(the concrete numbers live in external device arrays). -/

/-- A norm order as compared by the source: `p == 2`, `p == np.inf`, or any
other number. -/
inductive POrder where
  | rat (q : ℚ)
  | inf
deriving DecidableEq, Repr

/-- A field input to `norm`: a DOFArray (opaque id) or an object array. -/
inductive NVec where
  | dofLeaf (id : ℕ)
  | arr (l : List NVec)

/-- The value of a norm reduction, as a symbolic tree: `l2 id` / `linf id`
are the bound `sym.norm` reductions of a single DOFArray, `powHalf` is
`** 0.5`, `sumv` is Python `sum`, `sq` is `** 2`, `maxv` is Python `max`. -/
inductive RVal where
  | l2 (id : ℕ)
  | linf (id : ℕ)
  | sq (r : RVal)
  | sumv (l : List RVal)
  | powHalf (r : RVal)
  | maxv (l : List RVal)

mutual

/-- `grudge.op.norm(dcoll, vec, p)` (op.py lines 780-799).  For an object
array: order 2 takes `sum(norm(component)**2)**0.5`, order infinity takes
`max(norm(component))`, any other order raises `ValueError("unsupported norm
order")`.  For a single DOFArray the source defers to the bound `sym.norm`;
modelled from the spec: "supports order-2 and order-infinity explicitly;
other orders are a fatal unsupported error" (grudge/symbolic/primitives.py
is not among the sources). -/
def normF (p : POrder) : NVec → Except String RVal
  | .dofLeaf id =>
      match p with
      | .rat q => if q = 2 then .ok (.l2 id) else .error "unsupported norm order"
      | .inf => .ok (.linf id)
  | .arr l =>
      match p with
      | .rat q =>
          if q = 2 then
            (normFList (.rat 2) l).map (fun rs => .powHalf (.sumv (rs.map .sq)))
          else .error "unsupported norm order"
      | .inf => (normFList .inf l).map .maxv

/-- Elementwise recursion of `norm` over an object array (`np.ndindex`
iteration, op.py lines 789-795). -/
def normFList (p : POrder) : List NVec → Except String (List RVal)
  | [] => .ok []
  | x :: xs => do
      let y ← normF p x
      let ys ← normFList p xs
      pure (y :: ys)

end

mutual

/-- The order-2 global reduction that `norm` computes on a field: per
DOFArray the bound discrete L2 norm, per object array the root of the sum
of squared component reductions. -/
def l2val : NVec → RVal
  | .dofLeaf id => .l2 id
  | .arr l => .powHalf (.sumv ((l2valList l).map .sq))

/-- Componentwise `l2val` over an object array. -/
def l2valList : List NVec → List RVal
  | [] => []
  | x :: xs => l2val x :: l2valList xs

end

mutual

/-- The order-infinity global reduction that `norm` computes on a field: per
DOFArray the bound discrete max norm, per object array the max of the
component reductions. -/
def linfval : NVec → RVal
  | .dofLeaf id => .linf id
  | .arr l => .maxv (linfvalList l)

/-- Componentwise `linfval` over an object array. -/
def linfvalList : List NVec → List RVal
  | [] => []
  | x :: xs => linfval x :: linfvalList xs

end

/-! ## The inverse-mass contractor (mappers lines 956-1046)

`InverseMassContractor` walks the tree; on a binding of an inverse mass
operator it runs `_InnerInverseMassContractor` on the field, which pushes
the inverse mass inward, counting in `extra_operator_count` every inverse
mass it has to (re)introduce; the outer mapper keeps the contracted result
only when that count is at most one.  A failing Python `assert` (a lifted
flux reaching the contractor) is modelled as `none`. -/

/-- Modelled from the spec: the operator kinds that
`_InnerInverseMassContractor.map_operator_binding` distinguishes by
`isinstance` (grudge/symbolic/operators.py is not among the sources; the
spec, section 3, lists the operator variants, and the leaf classes tested —
mass, inverse mass, stiffness, stiffness-transpose, differentiation,
`MInvST`, flux, boundary flux — are modelled as disjoint kinds).
`otherOp` stands for any further operator kind (face mass, interpolation,
nodal reductions, ...), all of which take the mapper's fallback branch. -/
inductive IOp where
  | mass
  | inverseMass
  | stiffness (axis : ℕ)
  | stiffnessT (axis : ℕ)
  | differentiation (axis : ℕ)
  | minvST (axis : ℕ)
  | flux (isLift : Bool)
  | boundaryFlux (tag : ℕ) (isLift : Bool)
  | otherOp (id : ℕ)
deriving DecidableEq, Repr

/-- The expression nodes the inverse-mass contractor dispatches on:
constants, algebraic leaves (variables), scalar parameters
(`sym.ScalarParameter`), sums, products, and operator bindings. -/
inductive IExpr where
  | iconst (q : ℚ)
  | ivar (n : ℕ)
  | iscalarParam (n : ℕ)
  | isum (l : List IExpr)
  | iprod (l : List IExpr)
  | ibind (op : IOp) (f : IExpr)

/-- The `is_scalar` test inside `_InnerInverseMassContractor.map_product`
(mappers lines 1005-1006): ints, floats, complexes and
`sym.ScalarParameter`s. -/
def isScalarIE : IExpr → Bool
  | .iconst _ => true
  | .iscalarParam _ => true
  | _ => false

mutual

/-- `InverseMassContractor` (mappers lines 1028-1046): an identity mapper
except on operator bindings; a binding of an inverse mass operator is
handed to `_InnerInverseMassContractor`, and the contracted result is kept
only if at most one extra operator was introduced, otherwise the inverse
mass is applied to the recursively rewritten field; any other binding
rebuilds the operator over the rewritten field.  `none` propagates a failed
Python assertion from the inner contractor. -/
def imc : IExpr → Option IExpr
  | .iconst q => some (.iconst q)
  | .ivar n => some (.ivar n)
  | .iscalarParam n => some (.iscalarParam n)
  | .isum l => (imcList l).map .isum
  | .iprod l => (imcList l).map .iprod
  | .ibind .inverseMass f =>
      match iimc f with
      | none => none
      | some (e, n) =>
          if 1 < n then (imc f).map (.ibind .inverseMass) else some e
  | .ibind op f => (imc f).map (.ibind op)
termination_by e => (sizeOf e, 0)

/-- Identity-mapper recursion of `InverseMassContractor` over the children
of a sum or product. -/
def imcList : List IExpr → Option (List IExpr)
  | [] => some []
  | x :: xs => do
      let y ← imc x
      let ys ← imcList xs
      pure (y :: ys)
termination_by l => (sizeOf l, 0)

/-- `_InnerInverseMassContractor` (mappers lines 956-1025), returning the
rewritten expression together with the number of extra operators this call
added to `extra_operator_count`.  The zero constant is annihilated; other
constants and leaves get the inverse mass applied on top of the outer
contraction; a bound mass operator cancels; stiffness becomes
differentiation; stiffness-transpose becomes `MInvST`; a (boundary) flux
becomes its lift variant (a flux that is already a lift fails the source's
`assert`, modelled as `none`); any other binding and any product with more
than one nonscalar factor keeps an explicit inverse mass, counting one
extra operator. -/
def iimc : IExpr → Option (IExpr × ℕ)
  | .iconst q =>
      if q = 0 then some (.iconst 0, 0)
      else (imc (.iconst q)).map (fun e => (.ibind .inverseMass e, 0))
  | .ivar n => (imc (.ivar n)).map (fun e => (.ibind .inverseMass e, 0))
  | .iscalarParam n =>
      (imc (.iscalarParam n)).map (fun e => (.ibind .inverseMass e, 0))
  | .isum l =>
      (iimcList l).map (fun rs => (.isum (rs.map Prod.fst), (rs.map Prod.snd).sum))
  | .iprod l =>
      if 1 < (l.filter (fun c => !(isScalarIE c))).length then
        (imc (.iprod l)).map (fun e => (.ibind .inverseMass e, 1))
      else
        (iimcProdList l).map
          (fun rs => (.iprod (rs.map Prod.fst), (rs.map Prod.snd).sum))
  | .ibind .mass f => some (f, 0)
  | .ibind (.stiffness ax) f =>
      (imc f).map (fun e => (.ibind (.differentiation ax) e, 0))
  | .ibind (.stiffnessT ax) f =>
      (imc f).map (fun e => (.ibind (.minvST ax) e, 0))
  | .ibind (.flux isLift) f =>
      if isLift then none
      else (imc f).map (fun e => (.ibind (.flux true) e, 0))
  | .ibind (.boundaryFlux tag isLift) f =>
      if isLift then none
      else (imc f).map (fun e => (.ibind (.boundaryFlux tag true) e, 0))
  | .ibind op f =>
      (imc (.ibind op f)).map (fun e => (.ibind .inverseMass e, 1))
termination_by e => (sizeOf e, 1)

/-- `_InnerInverseMassContractor.map_sum` recursion over children,
accumulating the extra-operator counts. -/
def iimcList : List IExpr → Option (List (IExpr × ℕ))
  | [] => some []
  | x :: xs => do
      let y ← iimc x
      let ys ← iimcList xs
      pure (y :: ys)
termination_by l => (sizeOf l, 1)

/-- `_InnerInverseMassContractor.map_product`'s per-child `do_map`:
scalars pass through, nonscalars are contracted recursively. -/
def iimcProdList : List IExpr → Option (List (IExpr × ℕ))
  | [] => some []
  | x :: xs =>
      if isScalarIE x then
        (iimcProdList xs).map (fun ys => (x, 0) :: ys)
      else do
        let y ← iimc x
        let ys ← iimcProdList xs
        pure (y :: ys)
termination_by l => (sizeOf l, 1)

end

/-! ## The global-to-reference mapper (mappers lines 478-555) -/

/-- Modelled from the spec: the operator kinds `GlobalToReferenceMapper`
dispatches on, each carrying the domain descriptors the mapper reads
(`dd_in` for the geometric factor, `dd_out` where the reference operator is
rebuilt with both).  grudge/symbolic/operators.py is not among the sources;
the default descriptors of operators constructed without arguments
(`RefMassOperator()`, `InverseMassOperator()`, `DiffOperator(axis)`,
`StiffnessTOperator(axis)`) are the nodal volume descriptor. -/
inductive GOp where
  | mass (ddIn ddOut : DD)
  | inverseMass (ddIn ddOut : DD)
  | faceMass (ddIn ddOut : DD)
  | stiffness (axis : ℕ) (ddIn : DD)
  | diff (axis : ℕ) (ddIn : DD)
  | stiffnessT (axis : ℕ) (ddIn : DD)
  | minvST (axis : ℕ) (ddIn : DD)
  | refMass (ddIn ddOut : DD)
  | refInverseMass (ddIn ddOut : DD)
  | refFaceMass (ddIn ddOut : DD)
  | refDiff (rstAxis : ℕ) (ddIn : DD)
  | refStiffnessT (rstAxis : ℕ) (ddIn : DD)
  | otherG (id : ℕ)
deriving DecidableEq, Repr

/-- The expression nodes of the lowering stage: leaves, arithmetic
(pymbolic `+`, `*`, unary `-`, `/`), the geometric-factor primitives
`sym.area_element(ambient_dim, dim, dd)` and
`sym.inverse_metric_derivative(rst_axis, xyz_axis, ambient_dim, dim)`, and
operator bindings. -/
inductive GExpr where
  | gvar (n : ℕ)
  | gconst (q : ℚ)
  | gadd (a b : GExpr)
  | gmul (a b : GExpr)
  | gneg (a : GExpr)
  | gdiv (a b : GExpr)
  | areaElement (ambientDim dim : ℕ) (dd : DD)
  | invMetricDeriv (rstAxis xyzAxis ambientDim dim : ℕ)
  | gbind (op : GOp) (f : GExpr)
deriving DecidableEq, Repr

/-- Python `sum` over the generator in `rewrite_derivative` (mappers lines
511-516): starts from the integer 0 and adds each term. -/
def mkSumG (l : List GExpr) : GExpr := l.foldl .gadd (.gconst 0)

/-- A termination weight for `GlobalToReferenceMapper`: the `MInvST` and
stiffness branches re-enter the mapper on re-built, larger expressions, so
those operator kinds weigh more than the operators they expand into. -/
def gopWeight : GOp → ℕ
  | .minvST _ _ => 4
  | .stiffness _ _ => 3
  | _ => 1

/-- Weight of a `GExpr` under `gopWeight`. -/
def gweight : GExpr → ℕ
  | .gvar _ => 1
  | .gconst _ => 1
  | .areaElement _ _ _ => 1
  | .invMetricDeriv _ _ _ _ => 1
  | .gadd a b => 1 + gweight a + gweight b
  | .gmul a b => 1 + gweight a + gweight b
  | .gneg a => 1 + gweight a
  | .gdiv a b => 1 + gweight a + gweight b
  | .gbind op f => gopWeight op + gweight f

/-- `GlobalToReferenceMapper(ambient_dim, dim)` (mappers lines 478-555), as
`g2r a d`: an identity mapper on non-binding nodes; each global operator
binding becomes its reference equivalent times the appropriate geometric
factor sampled at the operator's input descriptor: mass multiplies by the
area element, inverse mass by its reciprocal, face mass by the negated
codimension-one area element, differentiation and stiffness-transpose
become sums over reference axes against inverse metric derivatives (the
transpose variant also multiplying by the area element), stiffness is
expressed through reference mass and differentiation, and `MInvST`
re-enters the mapper as inverse mass of stiffness-transpose. -/
def g2r (a d : ℕ) : GExpr → GExpr
  | .gvar n => .gvar n
  | .gconst q => .gconst q
  | .areaElement x y dd => .areaElement x y dd
  | .invMetricDeriv r x am dm => .invMetricDeriv r x am dm
  | .gadd p q => .gadd (g2r a d p) (g2r a d q)
  | .gmul p q => .gmul (g2r a d p) (g2r a d q)
  | .gneg p => .gneg (g2r a d p)
  | .gdiv p q => .gdiv (g2r a d p) (g2r a d q)
  | .gbind (.mass i o) f =>
      .gbind (.refMass i o) (.gmul (.areaElement a d i) (g2r a d f))
  | .gbind (.inverseMass i o) f =>
      .gbind (.refInverseMass i o)
        (.gmul (.gdiv (.gconst 1) (.areaElement a d i)) (g2r a d f))
  | .gbind (.faceMass i o) f =>
      .gbind (.refFaceMass i o)
        (.gmul (.gneg (.areaElement a (d - 1) i)) (g2r a d f))
  | .gbind (.stiffness ax i) f =>
      .gbind (.refMass DD_VOLUME DD_VOLUME)
        (.gmul (.areaElement a d i.withQtagNone)
          (g2r a d (.gbind (.diff ax DD_VOLUME) f)))
  | .gbind (.diff ax i) f =>
      mkSumG ((List.range d).map (fun rst =>
        .gmul (.invMetricDeriv rst ax a d) (.gbind (.refDiff rst i) (g2r a d f))))
  | .gbind (.stiffnessT ax i) f =>
      mkSumG ((List.range d).map (fun rst =>
        .gmul (.invMetricDeriv rst ax a d)
          (.gbind (.refStiffnessT rst i) (.gmul (.areaElement a d i) (g2r a d f)))))
  | .gbind (.minvST ax _) f =>
      g2r a d (.gbind (.inverseMass DD_VOLUME DD_VOLUME)
        (.gbind (.stiffnessT ax DD_VOLUME) f))
  | .gbind (.refMass i o) f => .gbind (.refMass i o) (g2r a d f)
  | .gbind (.refInverseMass i o) f => .gbind (.refInverseMass i o) (g2r a d f)
  | .gbind (.refFaceMass i o) f => .gbind (.refFaceMass i o) (g2r a d f)
  | .gbind (.refDiff r i) f => .gbind (.refDiff r i) (g2r a d f)
  | .gbind (.refStiffnessT r i) f => .gbind (.refStiffnessT r i) (g2r a d f)
  | .gbind (.otherG n) f => .gbind (.otherG n) (g2r a d f)
termination_by e => gweight e
decreasing_by
  all_goals simp [gweight, gopWeight]
  all_goals omega

/-! ## The commutative constant folder (mappers lines 808-827)

`CommutativeConstantFoldingMapper` inherits the commutative folding of sums
and products from pymbolic (an external dependency, not among the sources)
and overrides `is_constant` — an expression with no dependencies, where the
repository's `DependencyMapper` counts variables and operator bindings as
dependencies — and `map_operator_binding`, which annihilates a folded field
that `grudge.tools.is_zero` recognises as the number zero.  The inherited
machinery is modelled from the spec ("constant folding with a zero-field
annihilation rule"): per sum or product, bottom-up, the dependency-free
children are combined into one number, which is dropped when it is the
neutral element. -/

/-- The expression nodes seen by the folding pass: numeric constants,
variables, sums, products and operator bindings (the operator itself only
gets rebuilt, so it is an opaque id here). -/
inductive CExpr where
  | cconst (q : ℚ)
  | cvar (n : ℕ)
  | csum (l : List CExpr)
  | cprod (l : List CExpr)
  | cbind (opId : ℕ) (f : CExpr)

/-- Modelled from the spec: `grudge.tools.is_zero` (grudge/tools.py is not
among the sources): whether a folded expression is the plain number zero. -/
def is_zero : CExpr → Bool
  | .cconst q => q = 0
  | _ => false

mutual

/-- `CommutativeConstantFoldingMapper.is_constant` (mappers lines 817-818):
the dependency mapper finds no dependencies, i.e. the expression contains
no variable and no operator binding. -/
def noDepsC : CExpr → Bool
  | .cconst _ => true
  | .cvar _ => false
  | .cbind _ _ => false
  | .csum l => noDepsCList l
  | .cprod l => noDepsCList l

/-- `noDepsC` over the children of a sum or product. -/
def noDepsCList : List CExpr → Bool
  | [] => true
  | x :: xs => noDepsC x && noDepsCList xs

end

mutual

/-- Modelled from the spec: pymbolic's evaluation of a dependency-free
expression to a number (values on variables or bindings are never used and
default to 0). -/
def evalC : CExpr → ℚ
  | .cconst q => q
  | .cvar _ => 0
  | .cbind _ _ => 0
  | .csum l => evalCSum l
  | .cprod l => evalCProd l

/-- Sum of the evaluations of a list of children. -/
def evalCSum : List CExpr → ℚ
  | [] => 0
  | x :: xs => evalC x + evalCSum xs

/-- Product of the evaluations of a list of children. -/
def evalCProd : List CExpr → ℚ
  | [] => 1
  | x :: xs => evalC x * evalCProd xs

end

/-- Modelled from the spec: commutative folding of an already-folded list of
sum children: the constant (dependency-free) children combine into one
number, which replaces them unless it is the neutral 0; a sum left with no
non-constant children becomes that number. -/
def foldSumNode (cs : List CExpr) : CExpr :=
  let rest := cs.filter (fun c => !(noDepsC c))
  let cval := evalCSum (cs.filter (fun c => noDepsC c))
  if rest.isEmpty then .cconst cval
  else if cval = 0 then .csum rest
  else .csum (.cconst cval :: rest)

/-- Modelled from the spec: commutative folding of an already-folded list of
product children, with neutral element 1. -/
def foldProdNode (cs : List CExpr) : CExpr :=
  let rest := cs.filter (fun c => !(noDepsC c))
  let cval := evalCProd (cs.filter (fun c => noDepsC c))
  if rest.isEmpty then .cconst cval
  else if cval = 1 then .cprod rest
  else .cprod (.cconst cval :: rest)

mutual

/-- `CommutativeConstantFoldingMapper` (mappers lines 808-827): constants
and variables are left alone; sums and products fold their children
bottom-up and combine the constant ones; an operator binding folds its
field and collapses to the number zero whenever the folded field is zero
(`map_operator_binding`, lines 820-827), otherwise the operator is rebuilt
over the folded field. -/
def foldE : CExpr → CExpr
  | .cconst q => .cconst q
  | .cvar n => .cvar n
  | .cbind op f =>
      let f' := foldE f
      if is_zero f' then .cconst 0 else .cbind op f'
  | .csum l => foldSumNode (foldEList l)
  | .cprod l => foldProdNode (foldEList l)

/-- `foldE` over the children of a sum or product. -/
def foldEList : List CExpr → List CExpr
  | [] => []
  | x :: xs => foldE x :: foldEList xs

end

/-! ## Concrete evaluation data

Small concrete inputs used to evaluate the definitions above at specific
points. -/

/-- Example quadrature weights (two input nodes): weight 1 at node 0,
weight 2 elsewhere. -/
def c1exW : ℕ → ℚ := fun k => if k = 0 then 1 else 2

/-- Example inverse-transposed Vandermonde: the identity. -/
def c1exV : ℕ → ℕ → ℚ := fun i k => if i = k then 1 else 0

/-- Example Vandermonde at the input nodes: identity plus one off-diagonal
entry at row 0, column 1. -/
def c1exO : ℕ → ℕ → ℚ := fun j k => if j = k ∨ (j = 0 ∧ k = 1) then 1 else 0

/-- Example affine element group with one dof and unit reference matrices. -/
def c2exAffineGroup : MassElemGroup :=
  ⟨1, true, fun _ _ => 1, fun _ _ => 1⟩

/-- Example non-affine (curved) element group with one dof and unit
reference matrices. -/
def c2exCurvedGroup : MassElemGroup :=
  ⟨1, false, fun _ _ => 1, fun _ _ => 1⟩

/-- Example per-group area-element data: constant 1. -/
def c2exJac : ℕ → ℕ → ℚ := fun _ _ => 1

/-- Example per-group DOF data: constant 1. -/
def c2exVec : ℕ → ℕ → ℚ := fun _ _ => 1

/-! ## Theorems -/

/-- C1, counterexample: at a concrete two-dof cross-discretization input
(identity inverse-transposed Vandermonde, an off-diagonal entry in the
other-nodes Vandermonde, weights 1 and 2), the matrix computed by the
cross-group branch of `reference_mass_matrix` differs at entry (1,0) from
the formula `M[i,j] = Σ_k weights[k] · vand_inv_t[i,k] · other_vand[j,k]`
stated by the claim: the code yields 1, the claimed formula yields 2. -/
theorem c1_cross_mass_counterexample :
    get_ref_mass_mat_cross 2 c1exW c1exV c1exO 1 0 ≠
      spec_cross_mass_formula 2 c1exW c1exV c1exO 1 0 := by
  have h1 : get_ref_mass_mat_cross 2 c1exW c1exV c1exO 1 0 = 1 := by
    norm_num [get_ref_mass_mat_cross, einsum_j_ik_jk_ij, Finset.sum_range_succ,
      c1exW, c1exV, c1exO]
  have h2 : spec_cross_mass_formula 2 c1exW c1exV c1exO 1 0 = 2 := by
    norm_num [spec_cross_mass_formula, Finset.sum_range_succ, c1exW, c1exV, c1exO]
  rw [h1, h2]
  norm_num

/-- C1, amended: for differing discretizations, `reference_mass_matrix`
(cross-group branch, `np.einsum("j,ik,jk->ij", weights, vand_inv_t,
o_vand)`) returns the projection mass matrix
`M[i,j] = weights[j] · Σ_k vand_inv_t[i,k] · other_vand[j,k]`: the input
group's quadrature weight enters once per input node `j`, outside the sum
over the basis index `k`. -/
theorem c1_cross_mass_amended (nb : ℕ) (weights : ℕ → ℚ)
    (vand_inv_t o_vand : ℕ → ℕ → ℚ) (i j : ℕ) :
    get_ref_mass_mat_cross nb weights vand_inv_t o_vand i j =
      weights j * ∑ k ∈ Finset.range nb, vand_inv_t i k * o_vand j k := by
  unfold get_ref_mass_mat_cross einsum_j_ik_jk_ij
  rw [Finset.mul_sum]
  refine Finset.sum_congr rfl (fun k _ => ?_)
  ring

/-- C4: the `GlobalToReferenceMapper` rewrites every binding of a global
face-mass operator to the reference face-mass operator (with the same
descriptors) applied to the product of the negated codimension-one area
element sampled at the operator's input descriptor and the recursively
rewritten field. -/
theorem c4_face_mass_lowering (a d : ℕ) (i o : DD) (f : GExpr) :
    g2r a d (.gbind (.faceMass i o) f) =
      .gbind (.refFaceMass i o)
        (.gmul (.gneg (.areaElement a (d - 1) i)) (g2r a d f)) := by
  simp [g2r]

/-- C5: evaluation at the failing input.  In a fresh context, computing the
reference mass matrix for the discretization-key pair (7,7) and then
requesting the reference face-mass matrix for the same key pair returns the
cached mass matrix, not a face-mass matrix: both functions memoize under
the `reference_mass_matrix` identifier (op.py line 622). -/
theorem c5_face_mass_cache_collision :
    (reference_mass_matrix 7 7 []).1 = .massMat 7 7 ∧
    (reference_face_mass_matrix 7 7 (reference_mass_matrix 7 7 []).2).1 =
      .massMat 7 7 ∧
    (reference_face_mass_matrix 7 7 (reference_mass_matrix 7 7 []).2).1 ≠
      .faceMassMat 7 7 := by
  refine ⟨by decide, by decide, by decide⟩

/-- C8, counterexample: a call of `cross_rank_trace_pairs` on an object
array with one DOFArray component and tag 5, with one connected rank, issues
its exchange with communication tag 1273, not 1273 + 5: the object-array
path does not forward the caller's tag (op.py lines 949-951). -/
theorem c8_objarray_tag_counterexample :
    ¬ (∀ c ∈ cross_rank_trace_pairs_comms [1] (.objArray [false]) (some 5),
        c.tag = 1273 + 5) := by
  decide

/-- C8, amended: for a non-array field, every exchange of a
`cross_rank_trace_pairs` call with tag `t` uses communication tag
`1273 + t`; for an object-array field every per-component exchange uses the
base tag 1273 (the caller-supplied tag is not forwarded to the component
exchanges); a plain-number field issues no exchange. -/
theorem c8_tags_amended :
    (∀ (ranks : List ℕ) (t : ℤ),
      (cross_rank_trace_pairs_comms ranks .dofArray (some t)).all
        (fun c => c.tag == 1273 + t) = true) ∧
    (∀ (ranks : List ℕ) (comps : List Bool) (t : Option ℤ),
      (cross_rank_trace_pairs_comms ranks (.objArray comps) t).all
        (fun c => c.tag == 1273) = true) ∧
    (∀ (ranks : List ℕ) (t : Option ℤ),
      cross_rank_trace_pairs_comms ranks .number t = []) := by
  refine ⟨fun ranks t => ?_, fun ranks comps t => ?_, fun ranks t => ?_⟩
  · simp [cross_rank_trace_pairs_comms, cross_rank_scalar_field_comms, rbcTag,
      List.all_eq_true]
  · simp only [cross_rank_trace_pairs_comms, List.all_eq_true, List.mem_flatMap]
    rintro c ⟨isNum, _, hc⟩
    cases isNum <;>
      simp_all [cross_rank_scalar_field_comms, rbcTag, List.mem_map]
    obtain ⟨r, _, rfl⟩ := hc
    rfl
  · rfl

/-- C10: after descriptor normalization by `as_dofdesc`, `project` returns
its input unchanged whenever source and target normalize to the same
descriptor, for every input kind; and a plain-number input is returned
unchanged regardless of the descriptors. -/
theorem c10_project_identity :
    (∀ (conn : DD → DD → PVec → PVec) (src tgt : DDInput) (vec : PVec),
      as_dofdesc src = as_dofdesc tgt → project conn src tgt vec = vec) ∧
    (∀ (conn : DD → DD → PVec → PVec) (src tgt : DDInput) (q : ℚ),
      project conn src tgt (.num q) = .num q) := by
  constructor
  · intro conn src tgt vec h
    unfold project
    simp [h]
  · intro conn src tgt q
    by_cases h : as_dofdesc src = as_dofdesc tgt <;> unfold project <;> simp [h]

/-- C10, witness: projecting a DOF array from the string descriptor "vol"
to the equal normalized volume descriptor returns it unchanged. -/
theorem c10_project_identity_witness :
    project (fun _ _ v => v) .vol (.ofDD DD_VOLUME) (.dofA 0) = .dofA 0 :=
  c10_project_identity.1 (fun _ _ v => v) .vol (.ofDD DD_VOLUME) (.dofA 0) rfl

/-- The elementwise object-array recursion of `mass` is the monadic map of
`mass` over the components. -/
theorem massFList_eq_mapM (f : ℕ → ℕ) (l : List PVec) :
    massFList f l = l.mapM (massF f) := by
  induction l with
  | nil => rw [List.mapM_nil]; rfl
  | cons x xs ih => rw [List.mapM_cons, massFList, ih]

/-- The elementwise object-array recursion of `inverse_mass` is the monadic
map of `inverse_mass` over the components. -/
theorem inverseMassFList_eq_mapM (f : ℕ → ℕ) (l : List PVec) :
    inverseMassFList f l = l.mapM (inverseMassF f) := by
  induction l with
  | nil => rw [List.mapM_nil]; rfl
  | cons x xs ih => rw [List.mapM_cons, inverseMassFList, ih]

/-- The elementwise object-array recursion of `face_mass` is the monadic
map of `face_mass` over the components. -/
theorem faceMassFList_eq_mapM (f : ℕ → ℕ) (l : List PVec) :
    faceMassFList f l = l.mapM (faceMassF f) := by
  induction l with
  | nil => rw [List.mapM_nil]; rfl
  | cons x xs ih => rw [List.mapM_cons, faceMassFList, ih]

/-- C6, counterexample: `mass` applied to the plain number 3 is not a
pass-through: the number reaches `_apply_mass_operator`, whose read of
`vec.array_context` fails, so the call raises instead of returning 3. -/
theorem c6_scalar_counterexample :
    massF id (.num 3) ≠ .ok (.num 3) := by
  simp [massF]

/-- A monadic map over a nonempty index list whose function fails
everywhere with the same error fails with that error. -/
theorem mapM_error_of_ne_nil {β : Type} {l : List ℕ} (hne : l ≠ [])
    (msg : String) (g : ℕ → Except String β) (hg : ∀ ax, g ax = .error msg) :
    l.mapM g = .error msg := by
  cases l with
  | nil => exact absurd rfl hne
  | cons a as => rw [List.mapM_cons, hg a]; rfl

/-- C6, amended: `mass`, `inverse_mass` and `face_mass` recurse elementwise
over an object-array input; no listed operation passes a plain-number input
through: `mass` and `inverse_mass` raise an `AttributeError` at the
`vec.array_context` read of their application routine, `face_mass` raises
an `AttributeError` at the earlier `vec.entry_dtype` read, `_div_helper`
(underlying `local_div` and `weak_local_div`) rejects any non-object-array
input with a `TypeError`, and `local_grad` and `weak_local_grad` (for any
positive dimension) raise an `AttributeError` on a plain number — and
likewise on an object array, over which they do not recurse. -/
theorem c6_dispatch_amended :
    (∀ (f : ℕ → ℕ) (l : List PVec),
      massF f (.objA l) = (l.mapM (massF f)).map .objA) ∧
    (∀ (f : ℕ → ℕ) (l : List PVec),
      inverseMassF f (.objA l) = (l.mapM (inverseMassF f)).map .objA) ∧
    (∀ (f : ℕ → ℕ) (l : List PVec),
      faceMassF f (.objA l) = (l.mapM (faceMassF f)).map .objA) ∧
    (∀ (f : ℕ → ℕ) (q : ℚ), massF f (.num q) = .error attrErrMsg) ∧
    (∀ (f : ℕ → ℕ) (q : ℚ), inverseMassF f (.num q) = .error attrErrMsg) ∧
    (∀ (f : ℕ → ℕ) (q : ℚ), faceMassF f (.num q) = .error entryDtypeErrMsg) ∧
    (∀ (n : ℕ) (sumf : List PVec → PVec) (df : ℕ → PVec → PVec) (q : ℚ),
      div_helper n sumf df (.num q) =
        .error "TypeError: argument must be an object array") ∧
    (∀ (d : ℕ) (f : ℕ → ℕ → ℕ) (q : ℚ),
      localGradF (d + 1) f (.num q) = .error attrErrMsg) ∧
    (∀ (d : ℕ) (f : ℕ → ℕ → ℕ) (l : List PVec),
      localGradF (d + 1) f (.objA l) = .error attrErrMsg) ∧
    (∀ (d : ℕ) (f : ℕ → ℕ → ℕ) (q : ℚ),
      weakLocalGradF (d + 1) f (.num q) = .error attrErrMsg) ∧
    (∀ (d : ℕ) (f : ℕ → ℕ → ℕ) (l : List PVec),
      weakLocalGradF (d + 1) f (.objA l) = .error attrErrMsg) := by
  have hrange : ∀ d : ℕ, List.range (d + 1) ≠ [] := by
    intro d
    simp [List.range_eq_nil]
  refine ⟨?_, ?_, ?_, ?_, ?_, ?_, ?_, ?_, ?_, ?_, ?_⟩
  · intro f l; rw [massF, massFList_eq_mapM]
  · intro f l; rw [inverseMassF, inverseMassFList_eq_mapM]
  · intro f l; rw [faceMassF, faceMassFList_eq_mapM]
  · intro f q; rfl
  · intro f q; rfl
  · intro f q; rfl
  · intro n sumf df q; rfl
  · intro d f q
    unfold localGradF
    rw [mapM_error_of_ne_nil (hrange d) attrErrMsg
      (fun axis => compute_local_gradient f axis (.num q)) (fun ax => rfl)]
    rfl
  · intro d f l
    unfold localGradF
    rw [mapM_error_of_ne_nil (hrange d) attrErrMsg
      (fun axis => compute_local_gradient f axis (.objA l)) (fun ax => rfl)]
    rfl
  · intro d f q
    unfold weakLocalGradF
    rw [mapM_error_of_ne_nil (hrange d) attrErrMsg
      (fun axis => apply_stiffness_transpose_operator f axis (.num q)) (fun ax => rfl)]
    rfl
  · intro d f l
    unfold weakLocalGradF
    rw [mapM_error_of_ne_nil (hrange d) attrErrMsg
      (fun axis => apply_stiffness_transpose_operator f axis (.objA l)) (fun ax => rfl)]
    rfl

/-- `l2valList` is the componentwise map of `l2val`. -/
theorem l2valList_eq (l : List NVec) : l2valList l = l.map l2val := by
  induction l with
  | nil => simp [l2valList]
  | cons x xs ih => simp [l2valList, ih]

mutual

/-- `norm` with order 2 computes the order-2 global reduction. -/
theorem normF_two (v : NVec) : normF (.rat 2) v = .ok (l2val v) := by
  match v with
  | .dofLeaf id => simp [normF, l2val]
  | .arr l =>
      have h := normF_two_list l
      simp [normF, l2val, h, l2valList_eq, Except.map, List.map_map]

/-- `norm` with order 2 over the components of an object array. -/
theorem normF_two_list (l : List NVec) :
    normFList (.rat 2) l = .ok (l2valList l) := by
  match l with
  | [] => simp [normFList, l2valList]
  | x :: xs =>
      have h1 := normF_two x
      have h2 := normF_two_list xs
      simp only [normFList, l2valList, h1, h2]
      rfl

end

mutual

/-- `norm` with order infinity computes the order-infinity global
reduction. -/
theorem normF_inf (v : NVec) : normF .inf v = .ok (linfval v) := by
  match v with
  | .dofLeaf id => simp [normF, linfval]
  | .arr l =>
      have h := normF_inf_list l
      simp [normF, linfval, h, Except.map]

/-- `norm` with order infinity over the components of an object array. -/
theorem normF_inf_list (l : List NVec) :
    normFList .inf l = .ok (linfvalList l) := by
  match l with
  | [] => simp [normFList, linfvalList]
  | x :: xs =>
      have h1 := normF_inf x
      have h2 := normF_inf_list xs
      simp only [normFList, linfvalList, h1, h2]
      rfl

end

/-- C9: for every field input, `norm` with any order other than 2 and
infinity raises the fatal "unsupported norm order" error, while orders 2
and infinity return the corresponding global reductions. -/
theorem c9_norm_orders :
    (∀ (v : NVec) (q : ℚ), q ≠ 2 →
      normF (.rat q) v = .error "unsupported norm order") ∧
    (∀ v : NVec, normF (.rat 2) v = .ok (l2val v)) ∧
    (∀ v : NVec, normF .inf v = .ok (linfval v)) := by
  refine ⟨?_, normF_two, normF_inf⟩
  intro v q hq
  match v with
  | .dofLeaf id => simp [normF, hq]
  | .arr l => simp [normF, hq]

/-- C9, witness: order 3 on a single DOF array raises the unsupported-order
error. -/
theorem c9_norm_orders_witness :
    normF (.rat 3) (.dofLeaf 0) = .error "unsupported norm order" :=
  c9_norm_orders.1 (.dofLeaf 0) 3 (by norm_num)

/-- C2: with equal input and output descriptors, the inverse mass operator
applies, to every element group at once, the reference inverse-mass matrix
scaled by the reciprocal area element when every group is affine, and the
weight-adjusted approximate inverse
`ref_Minv · ref_M · (1/jac) · ref_Minv` when some group is non-affine. -/
theorem c2_inverse_mass_branches (dd : DD) (groups : List MassElemGroup)
    (jac vec : List (ℕ → ℕ → ℚ)) :
    ((∀ g ∈ groups, g.isAffine = true) →
      apply_inverse_mass_operator dd dd groups jac vec =
        .ok ((groups.zip ((jac.map (fun je => fun e j => (je e j)⁻¹)).zip vec)).map
          (fun gjx => fun e i =>
            ∑ j ∈ Finset.range gjx.1.nd,
              gjx.1.refInvMass i j * gjx.2.1 e j * gjx.2.2 e j))) ∧
    ((∃ g ∈ groups, g.isAffine = false) →
      apply_inverse_mass_operator dd dd groups jac vec =
        .ok ((groups.zip ((jac.map (fun je => fun e j => (je e j)⁻¹)).zip vec)).map
          (fun gjx => fun e i =>
            ∑ k ∈ Finset.range gjx.1.nd, ∑ m ∈ Finset.range gjx.1.nd,
              ∑ j ∈ Finset.range gjx.1.nd,
                gjx.1.refInvMass i k * gjx.1.refMass k m * gjx.2.1 e m *
                  gjx.1.refInvMass m j * gjx.2.2 e j))) := by
  constructor
  · intro h
    have hall : groups.all (fun g => g.isAffine) = true :=
      List.all_eq_true.mpr h
    unfold apply_inverse_mass_operator
    rw [if_neg (by simp), if_neg (by simp [hall])]
    rfl
  · rintro ⟨g, hg, hfalse⟩
    have hall : groups.all (fun g => g.isAffine) = false := by
      rcases h : groups.all (fun g => g.isAffine) with _ | _
      · rfl
      · have := List.all_eq_true.mp h g hg
        rw [hfalse] at this
        cases this
    unfold apply_inverse_mass_operator
    rw [if_neg (by simp), if_pos (by simp [hall])]
    rfl

/-- C2, witness: the affine branch on a one-group all-affine discretization
and the weight-adjusted branch on a one-group curved discretization, both
with unit data. -/
theorem c2_inverse_mass_branches_witness :
    (apply_inverse_mass_operator DD_VOLUME DD_VOLUME [c2exAffineGroup]
        [c2exJac] [c2exVec] =
      .ok (([c2exAffineGroup].zip
          (([c2exJac].map (fun je => fun e j => (je e j)⁻¹)).zip [c2exVec])).map
        (fun gjx => fun e i =>
          ∑ j ∈ Finset.range gjx.1.nd,
            gjx.1.refInvMass i j * gjx.2.1 e j * gjx.2.2 e j))) ∧
    (apply_inverse_mass_operator DD_VOLUME DD_VOLUME [c2exCurvedGroup]
        [c2exJac] [c2exVec] =
      .ok (([c2exCurvedGroup].zip
          (([c2exJac].map (fun je => fun e j => (je e j)⁻¹)).zip [c2exVec])).map
        (fun gjx => fun e i =>
          ∑ k ∈ Finset.range gjx.1.nd, ∑ m ∈ Finset.range gjx.1.nd,
            ∑ j ∈ Finset.range gjx.1.nd,
              gjx.1.refInvMass i k * gjx.1.refMass k m * gjx.2.1 e m *
                gjx.1.refInvMass m j * gjx.2.2 e j))) :=
  ⟨(c2_inverse_mass_branches DD_VOLUME [c2exAffineGroup] [c2exJac] [c2exVec]).1
      (by simp [c2exAffineGroup]),
    (c2_inverse_mass_branches DD_VOLUME [c2exCurvedGroup] [c2exJac] [c2exVec]).2
      ⟨c2exCurvedGroup, by simp, by simp [c2exCurvedGroup]⟩⟩

/-- C3: the inverse-mass contractor on a binding of an inverse mass
operator keeps the inner contractor's proposed rewrite exactly when at most
one extra operator was introduced, and otherwise falls back to the
unoptimized form: the inverse mass applied to the recursively rewritten
field.  The hypothesis records that the inner contraction ran without a
failing assertion. -/
theorem c3_inverse_mass_contractor_threshold (f e : IExpr) (n : ℕ)
    (h : iimc f = some (e, n)) :
    imc (.ibind .inverseMass f) =
      if 1 < n then (imc f).map (.ibind .inverseMass) else some e := by
  have step : imc (.ibind .inverseMass f) =
      match iimc f with
      | none => none
      | some (e, n) =>
          if 1 < n then (imc f).map (.ibind .inverseMass) else some e := by
    simp [imc]
  rw [step, h]

/-- C3, witness: contracting the inverse mass over a bound mass operator
cancels both: the inner contractor proposes the raw field with zero extra
operators, which the outer mapper keeps. -/
theorem c3_inverse_mass_contractor_witness :
    imc (.ibind .inverseMass (.ibind .mass (.ivar 0))) = some (.ivar 0) := by
  have h := c3_inverse_mass_contractor_threshold (.ibind .mass (.ivar 0))
    (.ivar 0) 0 (by simp [iimc])
  simpa using h

/-! ### Constant-folding lemmas -/

/-- Step equation of `foldE` on constants. -/
theorem foldE_cconst (q : ℚ) : foldE (.cconst q) = .cconst q := by
  simp [foldE]

/-- Step equation of `foldE` on variables. -/
theorem foldE_cvar (n : ℕ) : foldE (.cvar n) = .cvar n := by
  simp [foldE]

/-- Step equation of `foldE` on operator bindings. -/
theorem foldE_cbind (op : ℕ) (f : CExpr) :
    foldE (.cbind op f) =
      if is_zero (foldE f) then .cconst 0 else .cbind op (foldE f) := by
  simp [foldE]

/-- Step equation of `foldE` on sums. -/
theorem foldE_csum (l : List CExpr) :
    foldE (.csum l) = foldSumNode (foldEList l) := by
  simp [foldE]

/-- Step equation of `foldE` on products. -/
theorem foldE_cprod (l : List CExpr) :
    foldE (.cprod l) = foldProdNode (foldEList l) := by
  simp [foldE]

/-- `foldEList` is the elementwise map of `foldE`. -/
theorem foldEList_eq_map (l : List CExpr) : foldEList l = l.map foldE := by
  induction l with
  | nil => simp [foldEList]
  | cons x xs ih => simp [foldEList, ih]

/-- A list of fixed points of `foldE` maps to itself. -/
theorem map_foldE_fix {l : List CExpr} (h : ∀ c ∈ l, foldE c = c) :
    l.map foldE = l := by
  induction l with
  | nil => simp
  | cons x xs ih =>
      simp only [List.map_cons, h x (by simp)]
      rw [ih (fun c hc => h c (List.mem_cons_of_mem _ hc))]

/-- Folding a sum of already-folded, dependency-carrying children is a
fixed point. -/
theorem foldE_csum_rest_fix {rest : List CExpr}
    (hfix : ∀ c ∈ rest, foldE c = c)
    (hdeps : ∀ c ∈ rest, noDepsC c = false)
    (hne : rest ≠ []) :
    foldE (.csum rest) = .csum rest := by
  rw [foldE_csum, foldEList_eq_map, map_foldE_fix hfix]
  unfold foldSumNode
  have h1 : rest.filter (fun c => !(noDepsC c)) = rest :=
    List.filter_eq_self.mpr (fun c hc => by simp [hdeps c hc])
  have h2 : rest.filter (fun c => noDepsC c) = [] :=
    List.filter_eq_nil_iff.mpr (fun c hc => by simp [hdeps c hc])
  rw [h1, h2]
  simp [List.isEmpty_iff, hne, evalCSum]

/-- Folding a sum of a nonzero constant and already-folded,
dependency-carrying children is a fixed point. -/
theorem foldE_csum_const_rest_fix {rest : List CExpr} {cval : ℚ}
    (hfix : ∀ c ∈ rest, foldE c = c)
    (hdeps : ∀ c ∈ rest, noDepsC c = false)
    (hne : rest ≠ []) (hcz : cval ≠ 0) :
    foldE (.csum (.cconst cval :: rest)) = .csum (.cconst cval :: rest) := by
  rw [foldE_csum, foldEList_eq_map]
  have hmap : (CExpr.cconst cval :: rest).map foldE = .cconst cval :: rest := by
    simp only [List.map_cons, foldE_cconst]
    rw [map_foldE_fix hfix]
  rw [hmap]
  unfold foldSumNode
  have h1 : (CExpr.cconst cval :: rest).filter (fun c => !(noDepsC c)) = rest := by
    rw [List.filter_cons]
    simp only [noDepsC, Bool.not_true, Bool.false_eq_true, if_false]
    exact List.filter_eq_self.mpr (fun c hc => by simp [hdeps c hc])
  have h2 : (CExpr.cconst cval :: rest).filter (fun c => noDepsC c) =
      [.cconst cval] := by
    rw [List.filter_cons]
    simp only [noDepsC, if_true]
    rw [List.filter_eq_nil_iff.mpr (fun c hc => by simp [hdeps c hc])]
  rw [h1, h2]
  simp [List.isEmpty_iff, hne, evalCSum, evalC, hcz]

/-- Folding an already-folded sum node again leaves it unchanged. -/
theorem fold_foldSumNode (cs : List CExpr) (h : ∀ c ∈ cs, foldE c = c) :
    foldE (foldSumNode cs) = foldSumNode cs := by
  have hfix : ∀ c ∈ cs.filter (fun c => !(noDepsC c)), foldE c = c :=
    fun c hc => h c (List.mem_of_mem_filter hc)
  have hdeps : ∀ c ∈ cs.filter (fun c => !(noDepsC c)), noDepsC c = false := by
    intro c hc
    have := List.of_mem_filter hc
    simpa using this
  unfold foldSumNode
  by_cases hre : (cs.filter (fun c => !(noDepsC c))).isEmpty
  · rw [if_pos hre, foldE_cconst]
  · rw [if_neg hre]
    have hne : cs.filter (fun c => !(noDepsC c)) ≠ [] := by
      simpa [List.isEmpty_iff] using hre
    by_cases hcz : evalCSum (cs.filter (fun c => noDepsC c)) = 0
    · rw [if_pos hcz]
      exact foldE_csum_rest_fix hfix hdeps hne
    · rw [if_neg hcz]
      exact foldE_csum_const_rest_fix hfix hdeps hne hcz

/-- Folding a product of already-folded, dependency-carrying children is a
fixed point. -/
theorem foldE_cprod_rest_fix {rest : List CExpr}
    (hfix : ∀ c ∈ rest, foldE c = c)
    (hdeps : ∀ c ∈ rest, noDepsC c = false)
    (hne : rest ≠ []) :
    foldE (.cprod rest) = .cprod rest := by
  rw [foldE_cprod, foldEList_eq_map, map_foldE_fix hfix]
  unfold foldProdNode
  have h1 : rest.filter (fun c => !(noDepsC c)) = rest :=
    List.filter_eq_self.mpr (fun c hc => by simp [hdeps c hc])
  have h2 : rest.filter (fun c => noDepsC c) = [] :=
    List.filter_eq_nil_iff.mpr (fun c hc => by simp [hdeps c hc])
  rw [h1, h2]
  simp [List.isEmpty_iff, hne, evalCProd]

/-- Folding a product of a non-unit constant and already-folded,
dependency-carrying children is a fixed point. -/
theorem foldE_cprod_const_rest_fix {rest : List CExpr} {cval : ℚ}
    (hfix : ∀ c ∈ rest, foldE c = c)
    (hdeps : ∀ c ∈ rest, noDepsC c = false)
    (hne : rest ≠ []) (hcz : cval ≠ 1) :
    foldE (.cprod (.cconst cval :: rest)) = .cprod (.cconst cval :: rest) := by
  rw [foldE_cprod, foldEList_eq_map]
  have hmap : (CExpr.cconst cval :: rest).map foldE = .cconst cval :: rest := by
    simp only [List.map_cons, foldE_cconst]
    rw [map_foldE_fix hfix]
  rw [hmap]
  unfold foldProdNode
  have h1 : (CExpr.cconst cval :: rest).filter (fun c => !(noDepsC c)) = rest := by
    rw [List.filter_cons]
    simp only [noDepsC, Bool.not_true, Bool.false_eq_true, if_false]
    exact List.filter_eq_self.mpr (fun c hc => by simp [hdeps c hc])
  have h2 : (CExpr.cconst cval :: rest).filter (fun c => noDepsC c) =
      [.cconst cval] := by
    rw [List.filter_cons]
    simp only [noDepsC, if_true]
    rw [List.filter_eq_nil_iff.mpr (fun c hc => by simp [hdeps c hc])]
  rw [h1, h2]
  simp [List.isEmpty_iff, hne, evalCProd, evalC, hcz]

/-- Folding an already-folded product node again leaves it unchanged. -/
theorem fold_foldProdNode (cs : List CExpr) (h : ∀ c ∈ cs, foldE c = c) :
    foldE (foldProdNode cs) = foldProdNode cs := by
  have hfix : ∀ c ∈ cs.filter (fun c => !(noDepsC c)), foldE c = c :=
    fun c hc => h c (List.mem_of_mem_filter hc)
  have hdeps : ∀ c ∈ cs.filter (fun c => !(noDepsC c)), noDepsC c = false := by
    intro c hc
    have := List.of_mem_filter hc
    simpa using this
  unfold foldProdNode
  by_cases hre : (cs.filter (fun c => !(noDepsC c))).isEmpty
  · rw [if_pos hre, foldE_cconst]
  · rw [if_neg hre]
    have hne : cs.filter (fun c => !(noDepsC c)) ≠ [] := by
      simpa [List.isEmpty_iff] using hre
    by_cases hcz : evalCProd (cs.filter (fun c => noDepsC c)) = 1
    · rw [if_pos hcz]
      exact foldE_cprod_rest_fix hfix hdeps hne
    · rw [if_neg hcz]
      exact foldE_cprod_const_rest_fix hfix hdeps hne hcz

/-- The constant-folding pass is idempotent. -/
theorem foldE_foldE (e : CExpr) : foldE (foldE e) = foldE e := by
  match e with
  | .cconst q => rw [foldE_cconst, foldE_cconst]
  | .cvar n => rw [foldE_cvar, foldE_cvar]
  | .cbind op f =>
      have ih := foldE_foldE f
      rw [foldE_cbind]
      by_cases hz : is_zero (foldE f)
      · rw [if_pos hz, foldE_cconst]
      · rw [if_neg hz, foldE_cbind, ih, if_neg hz]
  | .csum l =>
      have ihl : ∀ c ∈ foldEList l, foldE c = c := by
        intro c hc
        rw [foldEList_eq_map] at hc
        obtain ⟨c0, hc0, rfl⟩ := List.mem_map.mp hc
        exact foldE_foldE c0
      rw [foldE_csum]
      exact fold_foldSumNode _ ihl
  | .cprod l =>
      have ihl : ∀ c ∈ foldEList l, foldE c = c := by
        intro c hc
        rw [foldEList_eq_map] at hc
        obtain ⟨c0, hc0, rfl⟩ := List.mem_map.mp hc
        exact foldE_foldE c0
      rw [foldE_cprod]
      exact fold_foldProdNode _ ihl
termination_by sizeOf e
decreasing_by
  all_goals simp
  all_goals have := List.sizeOf_lt_of_mem hc0
  all_goals omega

/-- C7: through the constant-folding pass, an operator binding whose field
folds to the zero constant collapses to exactly zero (the operator is
skipped), and applying the pass twice gives the same result as applying it
once. -/
theorem c7_constant_folding :
    (∀ (opId : ℕ) (f : CExpr),
      foldE f = .cconst 0 → foldE (.cbind opId f) = .cconst 0) ∧
    (∀ e : CExpr, foldE (foldE e) = foldE e) := by
  constructor
  · intro opId f h
    rw [foldE_cbind, h]
    simp [is_zero]
  · exact foldE_foldE

/-- C7, witness: an operator bound to the sum 2 + (-2), whose folding is
the zero constant, folds to exactly zero. -/
theorem c7_constant_folding_witness :
    foldE (.cbind 0 (.csum [.cconst 2, .cconst (-2)])) = .cconst 0 :=
  c7_constant_folding.1 0 (.csum [.cconst 2, .cconst (-2)])
    (by simp [foldE, foldEList, foldSumNode, noDepsC, evalCSum, evalC])

end GrudgeSpec
